import Mathlib

/-!
# Verification of the funding-rate arbitrage backtester

Shallow embedding of `src/workers/backtestFundingArb.ts` (the authoritative
copy of the decision engine, cooldown gate, position state machine and
backtest simulator).  Numbers are embedded as exact rationals; JavaScript
`Map` state becomes explicit function-typed state threaded through the
simulation; the module-global position maps become an explicit `SimState`
argument.  Every definition mirrors the source line by line; definitions
whose doc comment starts with `Modelled from the spec` restate the
specification's words for comparison against the source behaviour.
-/

/-- Perpetual position side (`'LONG'|'SHORT'` in the source). -/
inductive PerpDirection
  | LONG
  | SHORT
  deriving DecidableEq, Repr

/-- Spot hedge side (`'BUY'|'SELL'` in the source). -/
inductive SpotSide
  | BUY
  | SELL
  deriving DecidableEq, Repr

/-- Trade event kind (`type: 'CROSS'|'SINGLE'` in the source). -/
inductive EventType
  | CROSS
  | SINGLE
  deriving DecidableEq, Repr

/-- Trade event action (`action: 'ENTER'|'EXIT'|'FLIP'` in the source type). -/
inductive TradeAction
  | ENTER
  | EXIT
  | FLIP
  deriving DecidableEq, Repr

/-- Embedding of `interface FundingSnapshot` (backtestFundingArb.ts line 26). -/
structure FundingSnapshot where
  venue : String
  market : String
  hourlyPct : ℚ
  aprPct : ℚ
  ts : ℚ
  deriving DecidableEq, Repr

/-- Embedding of `interface TradeEvent` (lines 27-29); optional fields become `Option`. -/
structure TradeEvent where
  ts : ℚ
  market : String
  etype : EventType
  action : TradeAction
  driftSide : Option PerpDirection
  venueBSide : Option PerpDirection
  spotSide : Option SpotSide
  driftApr : Option ℚ
  venueBApr : Option ℚ
  netApr : Option ℚ
  pnl : Option ℚ
  deriving DecidableEq, Repr

/-- Embedding of `type SinglePos` (line 32).  Here `open` is a Lean keyword, embedded as `isOpen`. -/
structure SinglePos where
  isOpen : Bool
  perpSide : PerpDirection
  spotSide : SpotSide
  openedAt : ℚ
  lastActionAt : ℚ
  lastApr : ℚ
  deriving DecidableEq, Repr

/-- Embedding of `type CrossPos` (line 33). -/
structure CrossPos where
  isOpen : Bool
  driftSide : PerpDirection
  venueBSide : PerpDirection
  openedAt : ℚ
  lastActionAt : ℚ
  lastNetApr : ℚ
  deriving DecidableEq, Repr

/-- The configurable parameters of the backtest (lines 15-23):
`MARKETS`, `ENTER_APR`, `EXIT_APR`, `COOLDOWN_SEC`, `QUOTE_NOTIONAL`,
`PERP_PERP`, `VENUE_B`. -/
structure Config where
  markets : List String
  enterApr : ℚ
  exitApr : ℚ
  cooldownSec : ℚ
  notional : ℚ
  perpPerp : Bool
  venueB : String
  deriving Repr

/-- The module-global position maps `singlePositions` / `crossPositions`
(lines 34-35), embedded as explicit function-typed state. -/
structure SimState where
  single : String → Option SinglePos
  cross : String → Option CrossPos

/-- The initial value of the global maps: both empty. -/
def emptyState : SimState :=
  { single := fun _ => none, cross := fun _ => none }

/-- One point of the cumulative profit/loss series (`{ ts, pnl }`). -/
structure PnlPoint where
  ts : ℚ
  pnl : ℚ
  deriving DecidableEq, Repr

/-- Embedding of `decideReceivePerpSide` (lines 46-49): funding `≥ 0` means shorts receive. -/
def decideReceivePerpSide (hourlyPct : ℚ) : PerpDirection :=
  if 0 ≤ hourlyPct then .SHORT else .LONG

/-- Embedding of `spotSideForPerp` (lines 50-53). -/
def spotSideForPerp (perpSide : PerpDirection) : SpotSide :=
  match perpSide with
  | .SHORT => .BUY
  | .LONG => .SELL

/-- JavaScript `Math.abs` on exact rationals, written as a plain conditional
so that it evaluates by rewriting; equal to Mathlib's `|·|` (`rabs_eq_abs`). -/
def rabs (q : ℚ) : ℚ := if q < 0 then -q else q

/-- JavaScript `Math.max` on exact rationals; equal to `max` (`rmax_eq_max`). -/
def rmax (a b : ℚ) : ℚ := if a < b then b else a

/-- The epsilon of the sign classifier, `const EPS = 1e-6` (line 60). -/
def EPS : ℚ := 1 / 1000000

/-- Embedding of `const sgn = (x) => (Math.abs(x) <= EPS ? 0 : x > 0 ? 1 : -1)` (line 61). -/
def sgn (x : ℚ) : ℤ :=
  if rabs x ≤ EPS then 0 else if 0 < x then 1 else -1

/-- Result record of `crossDecision`. -/
structure CrossDec where
  netApr : ℚ
  driftSide : PerpDirection
  venueBSide : PerpDirection
  reason : String
  deriving DecidableEq, Repr

/-- Embedding of `crossDecision` (lines 59-97 of backtestFundingArb.ts).  The same-sign
branch sets both sides from `driftHourly >= 0` (lines 85-91), exactly as in
the source. -/
def crossDecision (driftHourly driftApr venueBHourly venueBApr : ℚ) : CrossDec :=
  let sA := sgn driftHourly
  let sB := sgn venueBHourly
  let absA := rabs driftApr
  let absB := rabs venueBApr
  if sA ≠ 0 ∧ sB ≠ 0 ∧ sA ≠ sB then
    { netApr := absA + absB
      driftSide := decideReceivePerpSide driftHourly
      venueBSide := decideReceivePerpSide venueBHourly
      reason := "opposite signs → receive both" }
  else if (sA = 0 ∧ sB ≠ 0) ∨ (sA ≠ 0 ∧ sB = 0) then
    { netApr := rmax absA absB
      driftSide := decideReceivePerpSide driftHourly
      venueBSide := decideReceivePerpSide venueBHourly
      reason := "one side ~0 → receive single" }
  else
    if absA ≥ absB then
      { netApr := rabs (absA - absB)
        driftSide := if 0 ≤ driftHourly then .SHORT else .LONG
        venueBSide := if 0 ≤ driftHourly then .LONG else .SHORT
        reason := "same sign → receive larger, pay smaller" }
    else
      { netApr := rabs (absA - absB)
        driftSide := if 0 ≤ driftHourly then .LONG else .SHORT
        venueBSide := if 0 ≤ driftHourly then .SHORT else .LONG
        reason := "same sign → receive larger, pay smaller" }

/-- JavaScript `Math.round`: round half toward positive infinity. -/
def jsRound (q : ℚ) : ℤ := ⌊q + 1 / 2⌋

/-- The default exit threshold (lines 18-19):
`Math.max(0, Math.round(ENTER_APR * 0.6 * 100) / 100)`. -/
def exitAprDefault (enterApr : ℚ) : ℚ :=
  rmax 0 ((jsRound (enterApr * (3 / 5) * 100) : ℚ) / 100)

/-- Placeholder snapshot used only to express the in-bounds array read
`dydxData[j].ts` of the pointer loop as a total function. -/
def dfltSnap : FundingSnapshot := ⟨"", "", 0, 0, 0⟩

/-- Fuel-indexed unfolding of the pointer loop
`while (j < dydxData.length - 1 && dydxData[j].ts < ts) j++` (line 161). -/
def advancePtrFuel : ℕ → List FundingSnapshot → ℚ → ℕ → ℕ
  | 0, _, _, j => j
  | fuel + 1, dydxData, ts, j =>
      if j < dydxData.length - 1 ∧ (dydxData.getD j dfltSnap).ts < ts then
        advancePtrFuel fuel dydxData ts (j + 1)
      else j

/-- The pointer loop of line 161; `dydxData.length` steps of fuel suffice
because the index strictly increases and is bounded by the length. -/
def advancePtr (dydxData : List FundingSnapshot) (ts : ℚ) (j : ℕ) : ℕ :=
  advancePtrFuel dydxData.length dydxData ts j

/-- The secondary-leg values fed to the state machine (lines 164-165): the
snapshot at the pointer if it exists and is within the 30-minute alignment
tolerance, otherwise `(0, 0)`. -/
def secondaryAt (dydxData : List FundingSnapshot) (j : ℕ) (ts : ℚ) : ℚ × ℚ :=
  match dydxData[j]? with
  | some s => if rabs (s.ts - ts) < 1800000 then (s.hourlyPct, s.aprPct) else (0, 0)
  | none => (0, 0)

/-- The cross-venue phase of one evaluation step (lines 176-223).  Returns
the new cross position for the market, the realized profit/loss added to the
running total, and the trade events pushed, in order.  The cooldown guard
`coolingCross` (line 173) is false when no cross position exists. -/
def crossPhase (cfg : Config) (market : String) (now driftHourly driftApr dydxHourly dydxApr : ℚ)
    (cpos : Option CrossPos) : Option CrossPos × ℚ × List TradeEvent :=
  let dec := crossDecision (driftHourly / 100) driftApr (dydxHourly / 100) dydxApr
  match cpos with
  | none =>
      if dec.netApr ≥ cfg.enterApr then
        (some ⟨true, dec.driftSide, dec.venueBSide, now, now, dec.netApr⟩, 0,
         [⟨now, market, .CROSS, .ENTER, some dec.driftSide, some dec.venueBSide, none,
           some driftApr, some dydxApr, some dec.netApr, some 0⟩])
      else (none, 0, [])
  | some cp =>
      let cooling := now - cp.lastActionAt < cfg.cooldownSec * 1000
      if cp.isOpen = false then
        if dec.netApr ≥ cfg.enterApr ∧ ¬cooling then
          (some ⟨true, dec.driftSide, dec.venueBSide, now, now, dec.netApr⟩, 0,
           [⟨now, market, .CROSS, .ENTER, some dec.driftSide, some dec.venueBSide, none,
             some driftApr, some dydxApr, some dec.netApr, some 0⟩])
        else (some cp, 0, [])
      else
        let flipNeeded := cp.driftSide ≠ dec.driftSide ∨ cp.venueBSide ≠ dec.venueBSide
        let shouldClose := dec.netApr ≤ cfg.exitApr ∨ (flipNeeded ∧ dec.netApr < cfg.enterApr)
        let shouldFlip := flipNeeded ∧ dec.netApr ≥ cfg.enterApr
        if shouldClose ∧ ¬cooling then
          let hoursHeld := (now - cp.openedAt) / 3600000
          let avgApr := (cp.lastNetApr + dec.netApr) / 2
          let pnlEarned := avgApr / 100 * (hoursHeld / 8760) * cfg.notional
          (some { cp with isOpen := false, lastActionAt := now, lastNetApr := dec.netApr },
           pnlEarned,
           [⟨now, market, .CROSS, .EXIT, some cp.driftSide, some cp.venueBSide, none,
             some driftApr, some dydxApr, some dec.netApr, some pnlEarned⟩])
        else if shouldFlip ∧ ¬cooling then
          let hoursHeld := (now - cp.lastActionAt) / 3600000
          let avgApr := (cp.lastNetApr + dec.netApr) / 2
          let pnlEarned := avgApr / 100 * (hoursHeld / 8760) * cfg.notional
          (some ⟨true, dec.driftSide, dec.venueBSide, now, now, dec.netApr⟩,
           pnlEarned,
           [⟨now, market, .CROSS, .EXIT, some cp.driftSide, some cp.venueBSide, none,
             some driftApr, some dydxApr, some dec.netApr, some pnlEarned⟩,
            ⟨now, market, .CROSS, .ENTER, some dec.driftSide, some dec.venueBSide, none,
             some driftApr, some dydxApr, some dec.netApr, some 0⟩])
        else (some cp, 0, [])

/-- The single-venue phase of one evaluation step (lines 228-271), reached
only when no cross position is open after the cross phase.  In the holding
branch the source mutates `pos.lastApr = driftApr` in place (line 270); in
the close and flip branches that assignment hits a stale object already
replaced in the map, so only the hold branch keeps the update. -/
def singlePhase (cfg : Config) (market : String) (now driftHourly driftApr : ℚ)
    (pos : Option SinglePos) : Option SinglePos × ℚ × List TradeEvent :=
  let absApr := rabs driftApr
  let desiredPerpSide := decideReceivePerpSide (driftHourly / 100)
  let desiredSpotSide := spotSideForPerp desiredPerpSide
  match pos with
  | none =>
      if absApr ≥ cfg.enterApr then
        (some ⟨true, desiredPerpSide, desiredSpotSide, now, now, driftApr⟩, 0,
         [⟨now, market, .SINGLE, .ENTER, some desiredPerpSide, none, some desiredSpotSide,
           some driftApr, none, none, some 0⟩])
      else (none, 0, [])
  | some p =>
      let cooling := now - p.lastActionAt < cfg.cooldownSec * 1000
      if p.isOpen = false then
        if absApr ≥ cfg.enterApr ∧ ¬cooling then
          (some ⟨true, desiredPerpSide, desiredSpotSide, now, now, driftApr⟩, 0,
           [⟨now, market, .SINGLE, .ENTER, some desiredPerpSide, none, some desiredSpotSide,
             some driftApr, none, none, some 0⟩])
        else (some p, 0, [])
      else
        let signalFlipped := desiredPerpSide ≠ p.perpSide
        let shouldClose := absApr ≤ cfg.exitApr ∨ (signalFlipped ∧ absApr < cfg.enterApr)
        let shouldFlip := signalFlipped ∧ absApr ≥ cfg.enterApr
        if shouldClose ∧ ¬cooling then
          let hoursHeld := (now - p.openedAt) / 3600000
          let avgApr := (rabs p.lastApr + absApr) / 2
          let pnlEarned := avgApr / 100 * (hoursHeld / 8760) * cfg.notional
          (some { p with isOpen := false, lastActionAt := now, lastApr := driftApr },
           pnlEarned,
           [⟨now, market, .SINGLE, .EXIT, some p.perpSide, none, some p.spotSide,
             some driftApr, none, none, some pnlEarned⟩])
        else if shouldFlip ∧ ¬cooling then
          let hoursHeld := (now - p.lastActionAt) / 3600000
          let avgApr := (rabs p.lastApr + absApr) / 2
          let pnlEarned := avgApr / 100 * (hoursHeld / 8760) * cfg.notional
          (some ⟨true, desiredPerpSide, desiredSpotSide, now, now, driftApr⟩,
           pnlEarned,
           [⟨now, market, .SINGLE, .EXIT, some p.perpSide, none, some p.spotSide,
             some driftApr, none, none, some pnlEarned⟩,
            ⟨now, market, .SINGLE, .ENTER, some desiredPerpSide, none, some desiredSpotSide,
             some driftApr, none, none, some 0⟩])
        else (some { p with lastApr := driftApr }, 0, [])

/-- The continuous funding accrual of one step (lines 274-295), evaluated on
the position state after the step's transitions. -/
def hourlyAccrual (spos : Option SinglePos) (cpos : Option CrossPos)
    (driftHourly dydxHourly notional : ℚ) : ℚ :=
  (match spos with
   | some p =>
       if p.isOpen then
         driftHourly / 100 * notional * (if p.perpSide = .SHORT then 1 else -1)
       else 0
   | none => 0) +
  (match cpos with
   | some c =>
       if c.isOpen then
         driftHourly / 100 * notional * (if c.driftSide = .SHORT then 1 else -1) +
           dydxHourly / 100 * notional * (if c.venueBSide = .SHORT then 1 else -1)
       else 0
   | none => 0)

/-- Result of one evaluation step for one market. -/
structure StepRes where
  st : SimState
  cum : ℚ
  evs : List TradeEvent
  j : ℕ

/-- One iteration of the backtest's inner loop (lines 157-297): advance the
secondary pointer, run the cross phase (if cross-venue mode is on), run the
single-venue phase unless a cross position is open, then add the continuous
accrual to the running total (guarded by `hourlyPnl !== 0` as in line 293). -/
def stepMarket (cfg : Config) (market : String) (dydxData : List FundingSnapshot)
    (st : SimState) (cum : ℚ) (j0 : ℕ) (snap : FundingSnapshot) : StepRes :=
  let ts := snap.ts
  let j := advancePtr dydxData ts j0
  let sec := secondaryAt dydxData j ts
  let driftHourly := snap.hourlyPct
  let driftApr := snap.aprPct
  let dydxHourly := sec.1
  let dydxApr := sec.2
  let crossRes :=
    if cfg.perpPerp ∧ cfg.venueB ≠ "none" then
      crossPhase cfg market ts driftHourly driftApr dydxHourly dydxApr (st.cross market)
    else (st.cross market, 0, [])
  let cpos1 := crossRes.1
  let crossOpen := match cpos1 with
    | some c => c.isOpen
    | none => false
  let singleRes :=
    if crossOpen then (st.single market, (0 : ℚ), ([] : List TradeEvent))
    else singlePhase cfg market ts driftHourly driftApr (st.single market)
  let spos1 := singleRes.1
  let st1 : SimState :=
    { single := fun x => if x = market then spos1 else st.single x
      cross := fun x => if x = market then cpos1 else st.cross x }
  let accr := hourlyAccrual spos1 cpos1 driftHourly dydxHourly cfg.notional
  let cum1 := cum + crossRes.2.1 + singleRes.2.1
  let cum2 := if accr = 0 then cum1 else cum1 + accr
  ⟨st1, cum2, crossRes.2.2 ++ singleRes.2.2, j⟩

/-- Accumulated output of running one market (or the whole run). -/
structure RunOut where
  st : SimState
  cum : ℚ
  evs : List TradeEvent
  pnl : List PnlPoint

/-- The inner loop over the sorted primary series (lines 157-298): one step
per primary snapshot, appending one profit/loss point per step. -/
def runMarketSteps (cfg : Config) (market : String) (dydxData : List FundingSnapshot) :
    List FundingSnapshot → SimState → ℚ → ℕ → RunOut
  | [], st, cum, _ => ⟨st, cum, [], []⟩
  | snap :: rest, st, cum, j =>
      let r := stepMarket cfg market dydxData st cum j snap
      let out := runMarketSteps cfg market dydxData rest r.st r.cum r.j
      ⟨out.st, out.cum, r.evs ++ out.evs, ⟨snap.ts, r.cum⟩ :: out.pnl⟩

/-- Stable insertion into a timestamp-sorted list: the element goes before
the first member whose timestamp is not smaller, reproducing the stable
JavaScript `Array.sort((a, b) => a.ts - b.ts)`. -/
def insertByTs (x : FundingSnapshot) : List FundingSnapshot → List FundingSnapshot
  | [] => [x]
  | y :: ys => if y.ts < x.ts then y :: insertByTs x ys else x :: y :: ys

/-- Stable sort by timestamp, the embedding of `series.sort((a,b) => a.ts - b.ts)`
(lines 153-154). -/
def sortByTs : List FundingSnapshot → List FundingSnapshot
  | [] => []
  | a :: rest => insertByTs a (sortByTs rest)

/-- Historical series of one market (`type FundingSeries`, line 100). -/
structure FundingSeries where
  drift : List FundingSnapshot
  dydx : List FundingSnapshot
  deriving DecidableEq, Repr

/-- One market of the outer loop (lines 148-156): sort both series, reset the
secondary pointer to zero, then walk the primary series. -/
def runMarket (cfg : Config) (market : String) (series : FundingSeries)
    (st : SimState) (cum : ℚ) : RunOut :=
  runMarketSteps cfg market (sortByTs series.dydx) (sortByTs series.drift) st cum 0

/-- Output of `runSimulation`: the trade-event log and profit/loss series it
returns, plus the final global position maps and running total. -/
structure SimResult where
  tradeEvents : List TradeEvent
  pnlSeries : List PnlPoint
  state : SimState
  cum : ℚ

/-- The outer market loop of `runSimulation` (lines 148-299): markets in
configuration order, skipping those without collected history, threading the
global position maps and cumulative total through every market. -/
def runMarketsLoop (cfg : Config) (history : List (String × FundingSeries)) :
    List String → SimState → ℚ → SimResult
  | [], st, cum => ⟨[], [], st, cum⟩
  | m :: ms, st, cum =>
      match (history.find? (fun p => p.1 = m)).map (fun p => p.2) with
      | none => runMarketsLoop cfg history ms st cum
      | some series =>
          let r := runMarket cfg m series st cum
          let rest := runMarketsLoop cfg history ms r.st r.cum
          ⟨r.evs ++ rest.tradeEvents, r.pnl ++ rest.pnlSeries, rest.state, rest.cum⟩

/-- Embedding of `runSimulation` (lines 143-301).  Here `history` embeds the `historyData` map;
`st0` is the state of the module-global position maps when the call starts
(the empty maps for the first call of a process). -/
def runSimulation (cfg : Config) (history : List (String × FundingSeries))
    (st0 : SimState) : SimResult :=
  runMarketsLoop cfg history cfg.markets st0 0

/-- Modelled from the spec: `receiveSign` of the accrual clause — `+1` if the
held side receives funding at the current hourly rate's sign (`SHORT`
receives when `hourlyPct ≥ 0`, `LONG` receives when `hourlyPct < 0`), `-1`
otherwise. -/
def specReceiveSign (side : PerpDirection) (hourlyPct : ℚ) : ℚ :=
  if (side = .SHORT ∧ 0 ≤ hourlyPct) ∨ (side = .LONG ∧ hourlyPct < 0) then 1 else -1

/-- Modelled from the spec: the per-step continuous accrual as the claim
words it — `hourlyPct/100 * notional * receiveSign` per leg, summed over the
open positions' legs with each leg's own venue's hourly rate. -/
def specAccrual (spos : Option SinglePos) (cpos : Option CrossPos)
    (driftHourly dydxHourly notional : ℚ) : ℚ :=
  (match spos with
   | some p => if p.isOpen then driftHourly / 100 * notional * specReceiveSign p.perpSide driftHourly else 0
   | none => 0) +
  (match cpos with
   | some c =>
       if c.isOpen then
         driftHourly / 100 * notional * specReceiveSign c.driftSide driftHourly +
           dydxHourly / 100 * notional * specReceiveSign c.venueBSide dydxHourly
       else 0
   | none => 0)

/-- The opposite perpetual side. -/
def flipSide (side : PerpDirection) : PerpDirection :=
  match side with
  | .LONG => .SHORT
  | .SHORT => .LONG

/-- The cross-phase result of one step, as `stepMarket` computes it (the
`crossRes` of lines 176-223 with the pointer advance and tolerance check of
lines 161-165 applied); named so that the step can be reasoned about
component-wise. -/
def crossResStep (cfg : Config) (market : String) (dydxData : List FundingSnapshot)
    (st : SimState) (j0 : ℕ) (snap : FundingSnapshot) : Option CrossPos × ℚ × List TradeEvent :=
  if cfg.perpPerp ∧ cfg.venueB ≠ "none" then
    crossPhase cfg market snap.ts snap.hourlyPct snap.aprPct
      (secondaryAt dydxData (advancePtr dydxData snap.ts j0) snap.ts).1
      (secondaryAt dydxData (advancePtr dydxData snap.ts j0) snap.ts).2
      (st.cross market)
  else (st.cross market, 0, [])

/-- The single-phase result of one step, skipped entirely when the cross
position is open after the cross phase (line 227's `if (!crossOpen)`). -/
def singleResStep (cfg : Config) (market : String) (dydxData : List FundingSnapshot)
    (st : SimState) (j0 : ℕ) (snap : FundingSnapshot) :
    Option SinglePos × ℚ × List TradeEvent :=
  if (match (crossResStep cfg market dydxData st j0 snap).1 with
      | some c => c.isOpen
      | none => false) = true then (st.single market, (0 : ℚ), ([] : List TradeEvent))
  else singlePhase cfg market snap.ts snap.hourlyPct snap.aprPct (st.single market)

/-! ## Concrete inputs used to exercise the simulator -/

/-- Cross-venue configuration: defaults of the script
(`ENTER_APR = 10`, `EXIT_APR = 6`, `COOLDOWN_SEC = 300`, `QUOTE_NOTIONAL = 500`,
`PERP_PERP = true`, `VENUE_B = 'dydx'`), one market. -/
def cexCfgCross : Config := ⟨["SOL-PERP"], 10, 6, 300, 500, true, "dydx"⟩

/-- Three hourly snapshots per venue.  The venue-B funding flips sign between
steps so the run enters a cross position, closes it one hour later (entering a
single-venue position at the same timestamp), and then re-enters a cross
position while the single-venue position is still open. -/
def cexHistCross : List (String × FundingSeries) :=
  [("SOL-PERP",
    ⟨[⟨"drift", "SOL-PERP", 1 / 500, 438 / 25, 0⟩,
      ⟨"drift", "SOL-PERP", 1 / 500, 438 / 25, 3600000⟩,
      ⟨"drift", "SOL-PERP", 1 / 500, 438 / 25, 7200000⟩],
     [⟨"dydx", "SOL-PERP", -1 / 500, -438 / 25, 0⟩,
      ⟨"dydx", "SOL-PERP", 1 / 500, 438 / 25, 3600000⟩,
      ⟨"dydx", "SOL-PERP", -1 / 500, -438 / 25, 7200000⟩]⟩)]

/-- Single-venue-only configuration (`PERP_PERP` off). -/
def cexCfgSingle : Config := ⟨["SOL-PERP"], 10, 6, 300, 500, false, "none"⟩

/-- One snapshot with negative hourly funding (`hourlyPct = -0.002`,
`aprPct = -17.52`), enough to open a `LONG` single-venue position. -/
def cexHistSingle : List (String × FundingSeries) :=
  [("SOL-PERP", ⟨[⟨"drift", "SOL-PERP", -1 / 500, -438 / 25, 0⟩], []⟩)]

/-- The single-venue position open after the sole step of `cexHistSingle`. -/
def cexLongPos : Option SinglePos := some ⟨true, .LONG, .SELL, 0, 0, -438 / 25⟩

/-- Two-market configuration with overlapping time ranges. -/
def cexCfgTwo : Config := ⟨["A", "B"], 10, 6, 300, 500, false, "none"⟩

/-- Market `A` has two snapshots, market `B` one at the earlier timestamp,
so the concatenated reporting series is not globally time-ordered. -/
def cexHistTwo : List (String × FundingSeries) :=
  [("A", ⟨[⟨"drift", "A", 0, 0, 0⟩, ⟨"drift", "A", 0, 0, 3600000⟩], []⟩),
   ("B", ⟨[⟨"drift", "B", 0, 0, 0⟩], []⟩)]

/-- Primary series of market `A` in `cexHistTwo`. -/
def cexSeriesA : FundingSeries := ⟨[⟨"drift", "A", 0, 0, 0⟩, ⟨"drift", "A", 0, 0, 3600000⟩], []⟩

/-- Secondary snapshot at timestamp `0` (the closer one to `t = 1000`). -/
def secSnapA : FundingSnapshot := ⟨"dydx", "M", 1 / 1000, 219 / 25, 0⟩

/-- Secondary snapshot at timestamp `10000` (farther from `t = 1000`). -/
def secSnapB : FundingSnapshot := ⟨"dydx", "M", 1 / 200, 219 / 5, 10000⟩

/-- A state whose cross position for `SOL-PERP` is open. -/
def stWitness : SimState :=
  { single := fun _ => none
    cross := fun m => if m = "SOL-PERP" then some ⟨true, .SHORT, .LONG, 0, 0, 35⟩ else none }

/-- A primary snapshot an hour later, used to step `stWitness`. -/
def snapWitness : FundingSnapshot := ⟨"drift", "SOL-PERP", 1 / 500, 438 / 25, 3600000⟩

/-- The matching secondary series for `snapWitness`. -/
def dydxWitness : List FundingSnapshot := [⟨"dydx", "SOL-PERP", -1 / 500, -438 / 25, 3600000⟩]

/-- First trade event of the `cexCfgCross` run (cross ENTER at `t = 0`). -/
def cexEv0 : TradeEvent :=
  ⟨0, "SOL-PERP", .CROSS, .ENTER, some .SHORT, some .LONG, none,
   some (438 / 25), some (-438 / 25), some (876 / 25), some 0⟩

/-- Fourth trade event of the `cexCfgCross` run (cross ENTER at `t = 7200000`). -/
def cexEv3 : TradeEvent :=
  ⟨7200000, "SOL-PERP", .CROSS, .ENTER, some .SHORT, some .LONG, none,
   some (438 / 25), some (-438 / 25), some (876 / 25), some 0⟩

/-! ## Invariant predicates for the cooldown analysis -/

/-- Any two events of the list are either simultaneous or at least
`cooldownSec * 1000` milliseconds apart. -/
def sepBy (cd : ℚ) (l : List TradeEvent) : Prop :=
  ∀ e1 ∈ l, ∀ e2 ∈ l, e1.ts = e2.ts ∨ cd * 1000 ≤ |e1.ts - e2.ts|

/-- Every event of the list is no later than the given time. -/
def tsBounded (la : ℚ) (l : List TradeEvent) : Prop :=
  ∀ e ∈ l, e.ts ≤ la

/-- The sub-log of one market and one event kind. -/
def evFilter (m : String) (k : EventType) (l : List TradeEvent) : List TradeEvent :=
  l.filter (fun e => decide (e.market = m ∧ e.etype = k))

/-- Invariant tying a market's single-venue position to its SINGLE sub-log:
the sub-log is cooldown-separated, is empty when no position record exists,
and otherwise ends no later than the record's `lastActionAt`. -/
def singleKindInv (cd : ℚ) (spos : Option SinglePos) (l : List TradeEvent) : Prop :=
  sepBy cd l ∧
    match spos with
    | none => l = []
    | some p => tsBounded p.lastActionAt l

/-- The cross-venue counterpart of `singleKindInv`. -/
def crossKindInv (cd : ℚ) (cpos : Option CrossPos) (l : List TradeEvent) : Prop :=
  sepBy cd l ∧
    match cpos with
    | none => l = []
    | some c => tsBounded c.lastActionAt l

/-- The simulation-wide invariant: both per-kind invariants, for every market. -/
def globalInv (cd : ℚ) (st : SimState) (l : List TradeEvent) : Prop :=
  ∀ m, singleKindInv cd (st.single m) (evFilter m .SINGLE l) ∧
    crossKindInv cd (st.cross m) (evFilter m .CROSS l)
/-! ## Bridging and sign-classifier helper lemmas -/

theorem rabs_eq_abs (q : ℚ) : rabs q = |q| := by
  unfold rabs
  rcases lt_or_le q 0 with h | h
  · rw [if_pos h, abs_of_neg h]
  · rw [if_neg (not_lt.2 h), abs_of_nonneg h]

theorem rmax_eq_max (a b : ℚ) : rmax a b = max a b := by
  unfold rmax
  rcases lt_or_le a b with h | h
  · rw [if_pos h, max_eq_right h.le]
  · rw [if_neg (not_lt.2 h), max_eq_left h]

theorem sgn_pos_of_eq_one {x : ℚ} (h : sgn x = 1) : 0 < x := by
  unfold sgn at h
  by_cases h1 : rabs x ≤ EPS
  · rw [if_pos h1] at h
    exact absurd h (by decide)
  · rw [if_neg h1] at h
    by_cases h2 : 0 < x
    · exact h2
    · rw [if_neg h2] at h
      exact absurd h (by decide)

theorem sgn_neg_of_eq_neg_one {x : ℚ} (h : sgn x = -1) : x < 0 := by
  unfold sgn at h
  by_cases h1 : rabs x ≤ EPS
  · rw [if_pos h1] at h
    exact absurd h (by decide)
  · rw [if_neg h1] at h
    by_cases h2 : 0 < x
    · rw [if_pos h2] at h
      exact absurd h (by decide)
    · push_neg at h2
      rcases h2.lt_or_eq with h3 | h3
      · exact h3
      · exact absurd (by rw [h3]; norm_num [rabs, EPS]) h1

theorem sgn_trichotomy (x : ℚ) : sgn x = 0 ∨ sgn x = 1 ∨ sgn x = -1 := by
  unfold sgn
  split_ifs <;> simp

/-- Claim C4: for nonzero opposite signs (per the epsilon-based `sgn`),
`crossDecision` returns `netApr` exactly `|aprA| + |aprB|` and sets each
venue's side by `decideReceivePerpSide` on that venue's own hourly rate. -/
theorem c4_theorem (hA aA hB aB : ℚ) (h1 : sgn hA ≠ 0) (h2 : sgn hB ≠ 0)
    (h3 : sgn hA ≠ sgn hB) :
    (crossDecision hA aA hB aB).netApr = |aA| + |aB| ∧
    (crossDecision hA aA hB aB).driftSide = decideReceivePerpSide hA ∧
    (crossDecision hA aA hB aB).venueBSide = decideReceivePerpSide hB := by
  unfold crossDecision
  rw [if_pos ⟨h1, h2, h3⟩]
  exact ⟨by rw [rabs_eq_abs, rabs_eq_abs], rfl, rfl⟩

theorem c4_witness :
    (crossDecision 1 2 (-1) 3).netApr = |(2 : ℚ)| + |(3 : ℚ)| ∧
    (crossDecision 1 2 (-1) 3).driftSide = decideReceivePerpSide 1 ∧
    (crossDecision 1 2 (-1) 3).venueBSide = decideReceivePerpSide (-1) :=
  c4_theorem 1 2 (-1) 3 (by norm_num [sgn, rabs, EPS]) (by norm_num [sgn, rabs, EPS])
    (by norm_num [sgn, rabs, EPS])

theorem LONG_ne_SHORT : PerpDirection.LONG ≠ PerpDirection.SHORT := by decide

theorem SHORT_ne_LONG : PerpDirection.SHORT ≠ PerpDirection.LONG := by decide

theorem str_dydx_ne_none : ("dydx" : String) ≠ "none" := by decide

theorem str_A_ne_B : ("A" : String) ≠ "B" := by decide

/-- Claim C5 counterexample: with both hourly rates inside the epsilon zone
(`sgn` equal), venue B's `|apr|` strictly larger, `crossDecision` assigns
venue B the side `LONG`, while `decideReceivePerpSide` applied to venue B's
own hourly rate gives `SHORT` — the side of the larger venue is keyed to
venue A's sign, not its own. -/
theorem c5_counterexample :
    sgn (-(1 : ℚ) / 10000000) = sgn ((9 : ℚ) / 10000000) ∧
    |(-(876 : ℚ) / 10000)| < |((7884 : ℚ) / 10000)| ∧
    decideReceivePerpSide ((9 : ℚ) / 10000000) = PerpDirection.SHORT ∧
    (crossDecision (-(1 : ℚ) / 10000000) (-(876 : ℚ) / 10000)
        ((9 : ℚ) / 10000000) ((7884 : ℚ) / 10000)).venueBSide = PerpDirection.LONG := by
  refine ⟨?_, ?_, ?_, ?_⟩
  · norm_num [sgn, rabs, EPS]
  · rw [abs_of_nonpos (by norm_num), abs_of_nonneg (by norm_num)]
    norm_num
  · norm_num [decideReceivePerpSide]
  · norm_num [crossDecision, sgn, rabs, rmax, EPS, decideReceivePerpSide]

/-- Claim C5 (amended): for same-`sgn` inputs `crossDecision` always returns
`netApr = ||aprA| - |aprB||`; when the shared sign class is nonzero the venue
with the larger `|apr|` (ties to venue A) receives via `decideReceivePerpSide`
on its own hourly rate and the other venue takes the opposite side.  (When
both hourlies are within epsilon of zero, the sides are keyed to venue A's
raw sign instead — see the counterexample.) -/
theorem c5_theorem (hA aA hB aB : ℚ) (hsame : sgn hA = sgn hB) :
    (crossDecision hA aA hB aB).netApr = abs (|aA| - |aB|) ∧
    (sgn hA ≠ 0 →
      (|aB| ≤ |aA| →
        (crossDecision hA aA hB aB).driftSide = decideReceivePerpSide hA ∧
        (crossDecision hA aA hB aB).venueBSide = flipSide (decideReceivePerpSide hA)) ∧
      (|aA| < |aB| →
        (crossDecision hA aA hB aB).venueBSide = decideReceivePerpSide hB ∧
        (crossDecision hA aA hB aB).driftSide = flipSide (decideReceivePerpSide hB))) := by
  have h1 : ¬(sgn hA ≠ 0 ∧ sgn hB ≠ 0 ∧ sgn hA ≠ sgn hB) := fun h => h.2.2 hsame
  have h2 : ¬((sgn hA = 0 ∧ sgn hB ≠ 0) ∨ (sgn hA ≠ 0 ∧ sgn hB = 0)) := by
    rintro (⟨ha, hb⟩ | ⟨ha, hb⟩)
    · exact hb (hsame ▸ ha)
    · exact ha (hb ▸ hsame)
  unfold crossDecision
  rw [if_neg h1, if_neg h2]
  by_cases hge : rabs aA ≥ rabs aB
  · rw [if_pos hge]
    refine ⟨by rw [rabs_eq_abs aA, rabs_eq_abs aB, rabs_eq_abs], ?_⟩
    intro hs
    refine ⟨?_, ?_⟩
    · intro _
      refine ⟨rfl, ?_⟩
      unfold decideReceivePerpSide flipSide
      by_cases h0 : 0 ≤ hA
      · rw [if_pos h0, if_pos h0]
      · rw [if_neg h0, if_neg h0]
    · intro hlt
      rw [rabs_eq_abs, rabs_eq_abs] at hge
      exact absurd hlt (not_lt.2 hge)
  · rw [if_neg hge]
    refine ⟨by rw [rabs_eq_abs aA, rabs_eq_abs aB, rabs_eq_abs], ?_⟩
    intro hs
    refine ⟨?_, ?_⟩
    · intro hle
      rw [rabs_eq_abs, rabs_eq_abs] at hge
      exact absurd hle (not_le.2 (not_le.1 hge))
    · intro _
      rcases sgn_trichotomy hA with h0 | hpos | hneg
      · exact absurd h0 hs
      · have hApos : 0 < hA := sgn_pos_of_eq_one hpos
        have hBpos : 0 < hB := sgn_pos_of_eq_one (hsame ▸ hpos)
        unfold decideReceivePerpSide flipSide
        rw [if_pos hApos.le, if_pos hApos.le, if_pos hBpos.le]
        exact ⟨rfl, rfl⟩
      · have hAneg : hA < 0 := sgn_neg_of_eq_neg_one hneg
        have hBneg : hB < 0 := sgn_neg_of_eq_neg_one (hsame ▸ hneg)
        unfold decideReceivePerpSide flipSide
        rw [if_neg (not_le.2 hAneg), if_neg (not_le.2 hAneg), if_neg (not_le.2 hBneg)]
        exact ⟨rfl, rfl⟩

theorem c5_witness :
    (crossDecision (1 / 100) 17 (1 / 200) 10).netApr = abs (|(17 : ℚ)| - |(10 : ℚ)|) ∧
    (crossDecision (1 / 100) 17 (1 / 200) 10).driftSide = decideReceivePerpSide (1 / 100) ∧
    (crossDecision (1 / 100) 17 (1 / 200) 10).venueBSide =
      flipSide (decideReceivePerpSide (1 / 100)) := by
  have h := c5_theorem (1 / 100) 17 (1 / 200) 10 (by norm_num [sgn, rabs, EPS])
  have h2 := (h.2 (by norm_num [sgn, rabs, EPS])).1
    (by rw [abs_of_nonneg, abs_of_nonneg] <;> norm_num)
  exact ⟨h.1, h2.1, h2.2⟩

/-- Claim C6 counterexample: at `enterThresholdPct = 0.01` the default exit
threshold equals the enter threshold (`round(0.6) = 1` hundredth), so the
strict inequality fails; and at `enterThresholdPct = -1` the `max(0, ·)`
clamp makes the default `0`, not `round(-1 * 0.6, 2) = -0.6`. -/
theorem c6_counterexample :
    exitAprDefault (1 / 100) = 1 / 100 ∧
    ¬(exitAprDefault (1 / 100) < 1 / 100) ∧
    exitAprDefault (-1) = 0 ∧
    (jsRound ((-1 : ℚ) * (3 / 5) * 100) : ℚ) / 100 = -(3 / 5) ∧
    exitAprDefault (-1) ≠ (jsRound ((-1 : ℚ) * (3 / 5) * 100) : ℚ) / 100 := by
  norm_num [exitAprDefault, jsRound, rmax]

/-- Claim C6 (amended): the default exit threshold is
`max(0, round(enter * 0.6, 2))`; the clamp is inactive for `enter ≥ 0`, and
`exit < enter` holds for every `enter > 0.01` (it fails at `enter = 0.01`
and for nonpositive `enter`). -/
theorem c6_theorem (e : ℚ) :
    (0 ≤ e → exitAprDefault e = (jsRound (e * (3 / 5) * 100) : ℚ) / 100) ∧
    (1 / 100 < e → exitAprDefault e < e) := by
  constructor
  · intro he
    unfold exitAprDefault
    rw [rmax_eq_max, max_eq_right]
    have h1 : (0 : ℤ) ≤ jsRound (e * (3 / 5) * 100) := by
      unfold jsRound
      apply Int.le_floor.2
      push_cast
      nlinarith
    have h2 : (0 : ℚ) ≤ (jsRound (e * (3 / 5) * 100) : ℚ) := by exact_mod_cast h1
    linarith
  · intro he
    unfold exitAprDefault
    have hk1 : (1 : ℤ) ≤ jsRound (e * (3 / 5) * 100) := by
      unfold jsRound
      apply Int.le_floor.2
      push_cast
      nlinarith
    have hklt : (jsRound (e * (3 / 5) * 100) : ℚ) < 100 * e := by
      rcases le_or_lt e (1 / 80) with h80 | h80
      · have hle : jsRound (e * (3 / 5) * 100) ≤ 1 := by
          unfold jsRound
          have hx : e * (3 / 5) * 100 + 1 / 2 ≤ (5 : ℚ) / 4 := by nlinarith
          calc ⌊e * (3 / 5) * 100 + 1 / 2⌋ ≤ ⌊(5 : ℚ) / 4⌋ := Int.floor_le_floor hx
            _ = 1 := by norm_num
        have hq : (jsRound (e * (3 / 5) * 100) : ℚ) ≤ 1 := by exact_mod_cast hle
        nlinarith
      · have hfl : (jsRound (e * (3 / 5) * 100) : ℚ) ≤ e * (3 / 5) * 100 + 1 / 2 := by
          unfold jsRound
          exact Int.floor_le _
        nlinarith
    have hkq : (1 : ℚ) ≤ (jsRound (e * (3 / 5) * 100) : ℚ) := by exact_mod_cast hk1
    rw [rmax_eq_max, max_eq_right (by linarith)]
    linarith

theorem c6_witness : exitAprDefault 10 = 6 ∧ exitAprDefault 10 < 10 := by
  constructor
  · have h := (c6_theorem 10).1 (by norm_num)
    rw [h]
    norm_num [jsRound]
  · exact (c6_theorem 10).2 (by norm_num)

/-- Characterization of the fuel-indexed pointer loop: given enough fuel, the
result is at or after the start index, every skipped entry has timestamp
strictly before `t`, and if the loop stopped before the last index the entry
at the result has timestamp at least `t`. -/
theorem advancePtrFuel_spec (fuel : ℕ) : ∀ (l : List FundingSnapshot) (t : ℚ) (j : ℕ),
    l.length - 1 - j ≤ fuel →
    j ≤ advancePtrFuel fuel l t j ∧
    (∀ k, j ≤ k → k < advancePtrFuel fuel l t j → (l.getD k dfltSnap).ts < t) ∧
    (advancePtrFuel fuel l t j < l.length - 1 →
      t ≤ (l.getD (advancePtrFuel fuel l t j) dfltSnap).ts) := by
  induction fuel with
  | zero =>
      intro l t j hf
      simp only [advancePtrFuel]
      refine ⟨le_refl _, ?_, ?_⟩
      · intro k hk1 hk2
        omega
      · intro hlt
        omega
  | succ fuel ih =>
      intro l t j hf
      simp only [advancePtrFuel]
      by_cases hc : j < l.length - 1 ∧ (l.getD j dfltSnap).ts < t
      · rw [if_pos hc]
        have hf' : l.length - 1 - (j + 1) ≤ fuel := by omega
        obtain ⟨ih1, ih2, ih3⟩ := ih l t (j + 1) hf'
        refine ⟨by omega, ?_, ih3⟩
        intro k hk1 hk2
        rcases eq_or_lt_of_le hk1 with rfl | hk
        · exact hc.2
        · exact ih2 k (by omega) hk2
      · rw [if_neg hc]
        push_neg at hc
        refine ⟨le_refl _, ?_, ?_⟩
        · intro k hk1 hk2
          omega
        · intro hlt
          exact hc hlt

/-- Claim C7 (amended): the secondary snapshot used for a step at time `t` is
the one at the advanced pointer — the first index from the current pointer
whose timestamp is at least `t`, capped at the last index (not the closest
snapshot) — and it feeds the state machine only when within the 30-minute
tolerance, the secondary leg otherwise counting as `(0, 0)`. -/
theorem c7_theorem (dydxData : List FundingSnapshot) (t : ℚ) (j0 : ℕ) :
    j0 ≤ advancePtr dydxData t j0 ∧
    (∀ k, j0 ≤ k → k < advancePtr dydxData t j0 → (dydxData.getD k dfltSnap).ts < t) ∧
    (advancePtr dydxData t j0 < dydxData.length - 1 →
      t ≤ (dydxData.getD (advancePtr dydxData t j0) dfltSnap).ts) ∧
    (∀ s, dydxData[advancePtr dydxData t j0]? = some s →
      (rabs (s.ts - t) < 1800000 →
        secondaryAt dydxData (advancePtr dydxData t j0) t = (s.hourlyPct, s.aprPct)) ∧
      (1800000 ≤ rabs (s.ts - t) →
        secondaryAt dydxData (advancePtr dydxData t j0) t = (0, 0))) := by
  obtain ⟨h1, h2, h3⟩ := advancePtrFuel_spec dydxData.length dydxData t j0 (by omega)
  refine ⟨h1, h2, h3, ?_⟩
  intro s hs
  constructor
  · intro htol
    unfold secondaryAt
    rw [hs]
    dsimp only
    rw [if_pos htol]
  · intro htol
    unfold secondaryAt
    rw [hs]
    dsimp only
    rw [if_neg (not_lt.2 htol)]

/-- Claim C7 counterexample: with secondary snapshots at `0` and `10000` and a
primary step at `t = 1000`, the pointer advances to index `1` (timestamp
`10000`, distance `9000`), although the snapshot at index `0` (distance
`1000`) is strictly closer; the farther snapshot is the one fed to the state
machine. -/
theorem c7_counterexample :
    advancePtr [secSnapA, secSnapB] 1000 0 = 1 ∧
    secondaryAt [secSnapA, secSnapB] (advancePtr [secSnapA, secSnapB] 1000 0) 1000 =
      (secSnapB.hourlyPct, secSnapB.aprPct) ∧
    rabs (secSnapA.ts - 1000) < rabs (secSnapB.ts - 1000) ∧
    secSnapA.hourlyPct ≠ secSnapB.hourlyPct := by
  norm_num [advancePtr, advancePtrFuel, secondaryAt, rabs, secSnapA, secSnapB, dfltSnap]

theorem c7_witness :
    secondaryAt [secSnapA, secSnapB] (advancePtr [secSnapA, secSnapB] 1000 0) 1000 =
      (secSnapB.hourlyPct, secSnapB.aprPct) :=
  ((c7_theorem [secSnapA, secSnapB] 1000 0).2.2.2 secSnapB
      (by norm_num [advancePtr, advancePtrFuel, secSnapA, secSnapB, dfltSnap])).1
    (by norm_num [rabs, secSnapB])

/-- Claim C3 (amended): the continuous accrual added each step for the
positions open after the step's transitions equals, per leg,
`|hourlyPct| / 100 * notional * receiveSign` — the magnitude of the hourly
rate signed by whether the held side currently receives (the claim's signed
`hourlyPct/100 * notional * receiveSign` flips the sign whenever
`hourlyPct < 0`; see the counterexample).  For a cross position the two legs
are summed with each leg's own venue's hourly rate and side. -/
theorem c3_theorem (spos : Option SinglePos) (cpos : Option CrossPos) (hA hB N : ℚ) :
    hourlyAccrual spos cpos hA hB N =
      (match spos with
       | some p => if p.isOpen then |hA| / 100 * N * specReceiveSign p.perpSide hA else 0
       | none => 0) +
      (match cpos with
       | some c =>
           if c.isOpen then
             |hA| / 100 * N * specReceiveSign c.driftSide hA +
               |hB| / 100 * N * specReceiveSign c.venueBSide hB
           else 0
       | none => 0) := by
  have key : ∀ (side : PerpDirection) (h N' : ℚ),
      h / 100 * N' * (if side = PerpDirection.SHORT then 1 else -1) =
        |h| / 100 * N' * specReceiveSign side h := by
    intro side h N'
    cases side with
    | LONG =>
        rw [if_neg LONG_ne_SHORT]
        unfold specReceiveSign
        by_cases hh : h < 0
        · rw [if_pos (Or.inr ⟨rfl, hh⟩), abs_of_neg hh]
          ring
        · have hcond : ¬((PerpDirection.LONG = PerpDirection.SHORT ∧ 0 ≤ h) ∨
              (PerpDirection.LONG = PerpDirection.LONG ∧ h < 0)) := by
            rintro (⟨hc, -⟩ | ⟨-, hc⟩)
            · exact LONG_ne_SHORT hc
            · exact hh hc
          rw [if_neg hcond, abs_of_nonneg (not_lt.1 hh)]
    | SHORT =>
        rw [if_pos rfl]
        unfold specReceiveSign
        by_cases hh : 0 ≤ h
        · rw [if_pos (Or.inl ⟨rfl, hh⟩), abs_of_nonneg hh]
        · have hcond : ¬((PerpDirection.SHORT = PerpDirection.SHORT ∧ 0 ≤ h) ∨
              (PerpDirection.SHORT = PerpDirection.LONG ∧ h < 0)) := by
            rintro (⟨-, hc⟩ | ⟨hc, -⟩)
            · exact hh hc
            · exact SHORT_ne_LONG hc
          rw [if_neg hcond, abs_of_neg (not_le.1 hh)]
          ring
  unfold hourlyAccrual
  rcases spos with _ | p <;> rcases cpos with _ | c <;> dsimp only <;> simp only [← key]

/-- Claim C3 counterexample: in a run that opens a `LONG` single-venue
position at negative hourly funding `-0.002`, the accrual added to the
profit/loss series is `+0.01` per step (the long receives the negative
funding), while the claim's formula `hourlyPct/100 * notional * receiveSign`
with `receiveSign = +1` (LONG receives since `hourlyPct < 0`) yields `-0.01`. -/
theorem c3_counterexample :
    (runSimulation cexCfgSingle cexHistSingle emptyState).state.single "SOL-PERP" = cexLongPos ∧
    (runSimulation cexCfgSingle cexHistSingle emptyState).pnlSeries = [⟨0, 1 / 100⟩] ∧
    hourlyAccrual cexLongPos none (-1 / 500) 0 500 = 1 / 100 ∧
    specAccrual cexLongPos none (-1 / 500) 0 500 = -(1 / 100) ∧
    hourlyAccrual cexLongPos none (-1 / 500) 0 500 ≠
      specAccrual cexLongPos none (-1 / 500) 0 500 := by
  norm_num [runSimulation, runMarketsLoop, runMarket, runMarketSteps, stepMarket, crossPhase,
    singlePhase, crossDecision, sgn, rabs, rmax, EPS, secondaryAt, advancePtr, advancePtrFuel,
    sortByTs, insertByTs, hourlyAccrual, specAccrual, specReceiveSign, decideReceivePerpSide,
    spotSideForPerp, cexCfgSingle, cexHistSingle, emptyState, cexLongPos,
    LONG_ne_SHORT, SHORT_ne_LONG]

/-- Claim C9 counterexample: `runSimulation` reads and writes the module-global
position maps, which are not reset between calls; a second call in the same
process starts from the final state of the first and produces a different
trade log (the first call emits one ENTER, the second none, because the
position is already open). -/
theorem c9_counterexample :
    (runSimulation cexCfgSingle cexHistSingle emptyState).tradeEvents.length = 1 ∧
    (runSimulation cexCfgSingle cexHistSingle
        (runSimulation cexCfgSingle cexHistSingle emptyState).state).tradeEvents = [] ∧
    (runSimulation cexCfgSingle cexHistSingle
        (runSimulation cexCfgSingle cexHistSingle emptyState).state).tradeEvents ≠
      (runSimulation cexCfgSingle cexHistSingle emptyState).tradeEvents := by
  norm_num [runSimulation, runMarketsLoop, runMarket, runMarketSteps, stepMarket, crossPhase,
    singlePhase, crossDecision, sgn, rabs, rmax, EPS, secondaryAt, advancePtr, advancePtrFuel,
    sortByTs, insertByTs, hourlyAccrual, decideReceivePerpSide, spotSideForPerp,
    cexCfgSingle, cexHistSingle, emptyState, LONG_ne_SHORT, SHORT_ne_LONG]

/-- Claim C9 (amended): the simulation is a pure function of the configuration,
the collected history, and the initial position-map state — two runs from
equal initial state (in particular two fresh processes, whose maps start
empty) produce identical trade logs and profit/loss series — and
`crossDecision` returns identical output for identical input on every call. -/
theorem c9_theorem (cfg : Config) (history : List (String × FundingSeries))
    (st1 st2 : SimState) (h : st1 = st2) :
    (runSimulation cfg history st1).tradeEvents = (runSimulation cfg history st2).tradeEvents ∧
    (runSimulation cfg history st1).pnlSeries = (runSimulation cfg history st2).pnlSeries ∧
    ∀ a b c d : ℚ, crossDecision a b c d = crossDecision a b c d := by
  subst h
  exact ⟨rfl, rfl, fun _ _ _ _ => rfl⟩

theorem c9_witness :
    (runSimulation cexCfgSingle cexHistSingle emptyState).tradeEvents =
      (runSimulation cexCfgSingle cexHistSingle emptyState).tradeEvents :=
  (c9_theorem cexCfgSingle cexHistSingle emptyState emptyState rfl).1

/-- Every event pushed by the cross-venue phase is a CROSS event of this
market at the current timestamp, and is an ENTER with zero recorded pnl or an
EXIT (never a FLIP). -/
theorem crossPhase_evs_shape (cfg : Config) (market : String)
    (now hA aA hB aB : ℚ) (cpos : Option CrossPos) :
    ∀ e ∈ (crossPhase cfg market now hA aA hB aB cpos).2.2,
      e.etype = EventType.CROSS ∧ e.market = market ∧ e.ts = now ∧
      ((e.action = TradeAction.ENTER ∧ e.pnl = some 0) ∨ e.action = TradeAction.EXIT) := by
  intro e he
  unfold crossPhase at he
  rcases cpos with _ | cp <;> dsimp only at he <;> split_ifs at he <;>
    simp only [List.mem_cons, List.mem_singleton, List.not_mem_nil, or_false] at he <;>
    first
      | (rcases he with rfl | rfl
         · exact ⟨rfl, rfl, rfl, Or.inr rfl⟩
         · exact ⟨rfl, rfl, rfl, Or.inl ⟨rfl, rfl⟩⟩)
      | (subst he
         first
           | exact ⟨rfl, rfl, rfl, Or.inl ⟨rfl, rfl⟩⟩
           | exact ⟨rfl, rfl, rfl, Or.inr rfl⟩)

/-- Every event pushed by the single-venue phase is a SINGLE event of this
market at the current timestamp, and is an ENTER with zero recorded pnl or an
EXIT (never a FLIP). -/
theorem singlePhase_evs_shape (cfg : Config) (market : String)
    (now hA aA : ℚ) (pos : Option SinglePos) :
    ∀ e ∈ (singlePhase cfg market now hA aA pos).2.2,
      e.etype = EventType.SINGLE ∧ e.market = market ∧ e.ts = now ∧
      ((e.action = TradeAction.ENTER ∧ e.pnl = some 0) ∨ e.action = TradeAction.EXIT) := by
  intro e he
  unfold singlePhase at he
  rcases pos with _ | p <;> dsimp only at he <;> split_ifs at he <;>
    simp only [List.mem_cons, List.mem_singleton, List.not_mem_nil, or_false] at he <;>
    first
      | (rcases he with rfl | rfl
         · exact ⟨rfl, rfl, rfl, Or.inr rfl⟩
         · exact ⟨rfl, rfl, rfl, Or.inl ⟨rfl, rfl⟩⟩)
      | (subst he
         first
           | exact ⟨rfl, rfl, rfl, Or.inl ⟨rfl, rfl⟩⟩
           | exact ⟨rfl, rfl, rfl, Or.inr rfl⟩)

/-- Claim C1 counterexample: in the `cexHistCross` run the simulator enters a
cross position at `t = 0`, closes it and opens a single-venue position at
`t = 3600000`, and then — because the cross ENTER branch never checks the
single-venue position — re-enters a cross position at `t = 7200000` while the
single-venue position is still open, leaving both open flags true. -/
theorem c1_counterexample :
    ((runSimulation cexCfgCross cexHistCross emptyState).state.single "SOL-PERP").map
        SinglePos.isOpen = some true ∧
    ((runSimulation cexCfgCross cexHistCross emptyState).state.cross "SOL-PERP").map
        CrossPos.isOpen = some true := by
  norm_num [runSimulation, runMarketsLoop, runMarket, runMarketSteps, stepMarket, crossPhase,
    singlePhase, crossDecision, sgn, rabs, rmax, EPS, secondaryAt, advancePtr, advancePtrFuel,
    sortByTs, insertByTs, hourlyAccrual, decideReceivePerpSide, spotSideForPerp,
    cexCfgCross, cexHistCross, emptyState, LONG_ne_SHORT, SHORT_ne_LONG, str_dydx_ne_none]

/-- Claim C1 (amended): the half of the invariant that the code enforces —
whenever the cross-venue position of a market is open after a step (whether
held or just entered), that step leaves the single-venue position untouched
and emits only CROSS events, so a single-venue ENTER never happens while the
cross position is open.  (The converse direction fails: a cross ENTER can
occur while the single-venue position is open — see the counterexample.) -/
theorem c1_theorem (cfg : Config) (market : String) (dydxData : List FundingSnapshot)
    (st : SimState) (cum : ℚ) (j0 : ℕ) (snap : FundingSnapshot)
    (hopen : ((stepMarket cfg market dydxData st cum j0 snap).st.cross market).map
        CrossPos.isOpen = some true) :
    (stepMarket cfg market dydxData st cum j0 snap).st.single market = st.single market ∧
    ∀ e ∈ (stepMarket cfg market dydxData st cum j0 snap).evs, e.etype = EventType.CROSS := by
  unfold stepMarket at hopen ⊢
  dsimp only at hopen ⊢
  rw [if_pos rfl] at hopen
  set CR := (if cfg.perpPerp ∧ cfg.venueB ≠ "none" then
      crossPhase cfg market snap.ts snap.hourlyPct snap.aprPct
        (secondaryAt dydxData (advancePtr dydxData snap.ts j0) snap.ts).1
        (secondaryAt dydxData (advancePtr dydxData snap.ts j0) snap.ts).2
        (st.cross market)
    else (st.cross market, 0, [])) with hCR
  rcases hc : CR.1 with _ | c
  · rw [hc] at hopen
    simp at hopen
  · rw [hc] at hopen
    have hct : c.isOpen = true := by
      simpa using hopen
    dsimp only
    rw [hct]
    simp only [eq_self_iff_true, if_true, List.append_nil]
    constructor
    · trivial
    · intro e he
      rw [hCR] at he
      by_cases hcond : cfg.perpPerp ∧ cfg.venueB ≠ "none"
      · rw [if_pos hcond] at he
        exact (crossPhase_evs_shape cfg market snap.ts snap.hourlyPct snap.aprPct
          (secondaryAt dydxData (advancePtr dydxData snap.ts j0) snap.ts).1
          (secondaryAt dydxData (advancePtr dydxData snap.ts j0) snap.ts).2
          (st.cross market) e he).1
      · rw [if_neg hcond] at he
        exact absurd he (List.not_mem_nil e)

theorem c1_witness :
    (stepMarket cexCfgCross "SOL-PERP" dydxWitness stWitness 0 0 snapWitness).st.single
        "SOL-PERP" = stWitness.single "SOL-PERP" :=
  (c1_theorem cexCfgCross "SOL-PERP" dydxWitness stWitness 0 0 snapWitness
    (by norm_num [stepMarket, crossPhase, singlePhase, crossDecision, sgn, rabs, rmax, EPS,
      secondaryAt, advancePtr, advancePtrFuel, hourlyAccrual, decideReceivePerpSide,
      spotSideForPerp, cexCfgCross, stWitness, snapWitness, dydxWitness, dfltSnap,
      LONG_ne_SHORT, SHORT_ne_LONG, str_dydx_ne_none])).1

/-- A cross-venue phase that pushes two events is a flip: the events are an
EXIT followed by an ENTER at the same timestamp. -/
theorem crossPhase_flip_pair (cfg : Config) (market : String)
    (now hA aA hB aB : ℚ) (cpos : Option CrossPos)
    (hlen : (crossPhase cfg market now hA aA hB aB cpos).2.2.length = 2) :
    ∃ e1 e2, (crossPhase cfg market now hA aA hB aB cpos).2.2 = [e1, e2] ∧
      e1.action = TradeAction.EXIT ∧ e2.action = TradeAction.ENTER ∧ e1.ts = e2.ts := by
  unfold crossPhase at hlen ⊢
  rcases cpos with _ | cp <;> dsimp only at hlen ⊢ <;> split_ifs at hlen ⊢ <;>
    first
      | exact ⟨_, _, rfl, rfl, rfl, rfl⟩
      | exact absurd hlen (by norm_num)

/-- A single-venue phase that pushes two events is a flip: the events are an
EXIT followed by an ENTER at the same timestamp. -/
theorem singlePhase_flip_pair (cfg : Config) (market : String)
    (now hA aA : ℚ) (pos : Option SinglePos)
    (hlen : (singlePhase cfg market now hA aA pos).2.2.length = 2) :
    ∃ e1 e2, (singlePhase cfg market now hA aA pos).2.2 = [e1, e2] ∧
      e1.action = TradeAction.EXIT ∧ e2.action = TradeAction.ENTER ∧ e1.ts = e2.ts := by
  unfold singlePhase at hlen ⊢
  rcases pos with _ | p <;> dsimp only at hlen ⊢ <;> split_ifs at hlen ⊢ <;>
    first
      | exact ⟨_, _, rfl, rfl, rfl, rfl⟩
      | exact absurd hlen (by norm_num)

/-- Every event pushed by one full evaluation step carries this market's name
and the step's timestamp, and is an ENTER with zero pnl or an EXIT. -/
theorem stepMarket_evs_shape (cfg : Config) (market : String) (dydxData : List FundingSnapshot)
    (st : SimState) (cum : ℚ) (j0 : ℕ) (snap : FundingSnapshot) :
    ∀ e ∈ (stepMarket cfg market dydxData st cum j0 snap).evs,
      e.market = market ∧ e.ts = snap.ts ∧
      ((e.action = TradeAction.ENTER ∧ e.pnl = some 0) ∨ e.action = TradeAction.EXIT) := by
  intro e he
  unfold stepMarket at he
  dsimp only at he
  rcases List.mem_append.1 he with h1 | h2
  · by_cases hcond : cfg.perpPerp ∧ cfg.venueB ≠ "none"
    · rw [if_pos hcond] at h1
      have h := crossPhase_evs_shape cfg market snap.ts snap.hourlyPct snap.aprPct
        (secondaryAt dydxData (advancePtr dydxData snap.ts j0) snap.ts).1
        (secondaryAt dydxData (advancePtr dydxData snap.ts j0) snap.ts).2
        (st.cross market) e h1
      exact ⟨h.2.1, h.2.2.1, h.2.2.2⟩
    · rw [if_neg hcond] at h1
      exact absurd h1 (List.not_mem_nil e)
  · split_ifs at h2 <;>
      first
        | simp at h2
        | (have h := singlePhase_evs_shape cfg market snap.ts snap.hourlyPct snap.aprPct
            (st.single market) e h2
           exact ⟨h.2.1, h.2.2.1, h.2.2.2⟩)

/-- Every event of one market's walk names this market, has the timestamp of
one of the walked snapshots, and is an ENTER with zero pnl or an EXIT. -/
theorem runMarketSteps_evs_shape (cfg : Config) (market : String)
    (dydxData : List FundingSnapshot) :
    ∀ (snaps : List FundingSnapshot) (st : SimState) (cum : ℚ) (j : ℕ),
      ∀ e ∈ (runMarketSteps cfg market dydxData snaps st cum j).evs,
        e.market = market ∧ (∃ s ∈ snaps, e.ts = s.ts) ∧
        ((e.action = TradeAction.ENTER ∧ e.pnl = some 0) ∨ e.action = TradeAction.EXIT) := by
  intro snaps
  induction snaps with
  | nil =>
      intro st cum j e he
      simp [runMarketSteps] at he
  | cons snap rest ih =>
      intro st cum j e he
      simp only [runMarketSteps] at he
      rcases List.mem_append.1 he with h1 | h2
      · have h := stepMarket_evs_shape cfg market dydxData st cum j snap e h1
        exact ⟨h.1, ⟨snap, List.mem_cons_self snap rest, h.2.1⟩, h.2.2⟩
      · obtain ⟨hm, ⟨s, hs, hts⟩, ha⟩ := ih _ _ _ e h2
        exact ⟨hm, ⟨s, List.mem_cons_of_mem snap hs, hts⟩, ha⟩

/-- Every event of the whole simulation is an ENTER with zero pnl or an EXIT. -/
theorem runMarketsLoop_actions (cfg : Config) (history : List (String × FundingSeries)) :
    ∀ (ms : List String) (st : SimState) (cum : ℚ),
      ∀ e ∈ (runMarketsLoop cfg history ms st cum).tradeEvents,
        (e.action = TradeAction.ENTER ∧ e.pnl = some 0) ∨ e.action = TradeAction.EXIT := by
  intro ms
  induction ms with
  | nil =>
      intro st cum e he
      simp [runMarketsLoop] at he
  | cons m rest ih =>
      intro st cum e he
      unfold runMarketsLoop at he
      rcases hfind : (history.find? (fun p => p.1 = m)).map (fun p => p.2) with _ | series
      · rw [hfind] at he
        exact ih _ _ e he
      · rw [hfind] at he
        dsimp only at he
        rcases List.mem_append.1 he with h1 | h2
        · exact (runMarketSteps_evs_shape cfg m (sortByTs series.dydx)
            (sortByTs series.drift) st cum 0 e h1).2.2
        · exact ih _ _ e h2

/-- Claim C10: every TradeEvent emitted by the backtest simulation has action
ENTER or EXIT and never FLIP, every ENTER event carries realized pnl `0`, and
a flip is recorded as two events — whenever a phase pushes two events they
are an EXIT immediately followed by an ENTER sharing one timestamp. -/
theorem c10_theorem :
    (∀ (cfg : Config) (history : List (String × FundingSeries)) (st0 : SimState),
      ∀ e ∈ (runSimulation cfg history st0).tradeEvents,
        (e.action = TradeAction.ENTER ∨ e.action = TradeAction.EXIT) ∧
        (e.action = TradeAction.ENTER → e.pnl = some 0)) ∧
    (∀ (cfg : Config) (market : String) (now hA aA hB aB : ℚ) (cpos : Option CrossPos),
      (crossPhase cfg market now hA aA hB aB cpos).2.2.length = 2 →
      ∃ e1 e2, (crossPhase cfg market now hA aA hB aB cpos).2.2 = [e1, e2] ∧
        e1.action = TradeAction.EXIT ∧ e2.action = TradeAction.ENTER ∧ e1.ts = e2.ts) ∧
    (∀ (cfg : Config) (market : String) (now hA aA : ℚ) (pos : Option SinglePos),
      (singlePhase cfg market now hA aA pos).2.2.length = 2 →
      ∃ e1 e2, (singlePhase cfg market now hA aA pos).2.2 = [e1, e2] ∧
        e1.action = TradeAction.EXIT ∧ e2.action = TradeAction.ENTER ∧ e1.ts = e2.ts) := by
  refine ⟨?_, ?_, ?_⟩
  · intro cfg history st0 e he
    rcases runMarketsLoop_actions cfg history cfg.markets st0 0 e he with ⟨h1, h2⟩ | h1
    · exact ⟨Or.inl h1, fun _ => h2⟩
    · refine ⟨Or.inr h1, fun hE => ?_⟩
      rw [hE] at h1
      exact absurd h1 (by decide)
  · intro cfg market now hA aA hB aB cpos hlen
    exact crossPhase_flip_pair cfg market now hA aA hB aB cpos hlen
  · intro cfg market now hA aA pos hlen
    exact singlePhase_flip_pair cfg market now hA aA pos hlen

theorem c10_witness :
    (cexEv0.action = TradeAction.ENTER ∨ cexEv0.action = TradeAction.EXIT) ∧
    (cexEv0.action = TradeAction.ENTER → cexEv0.pnl = some 0) :=
  c10_theorem.1 cexCfgCross cexHistCross emptyState cexEv0
    (by norm_num [runSimulation, runMarketsLoop, runMarket, runMarketSteps, stepMarket,
      crossPhase, singlePhase, crossDecision, sgn, rabs, rmax, EPS, secondaryAt, advancePtr,
      advancePtrFuel, sortByTs, insertByTs, hourlyAccrual, decideReceivePerpSide,
      spotSideForPerp, cexCfgCross, cexHistCross, emptyState, cexEv0,
      LONG_ne_SHORT, SHORT_ne_LONG, str_dydx_ne_none])

theorem insertByTs_mem (x : FundingSnapshot) :
    ∀ (l : List FundingSnapshot) (y : FundingSnapshot), y ∈ insertByTs x l → y = x ∨ y ∈ l := by
  intro l
  induction l with
  | nil =>
      intro y hy
      simp [insertByTs] at hy
      exact Or.inl hy
  | cons a rest ih =>
      intro y hy
      unfold insertByTs at hy
      split_ifs at hy
      · rcases List.mem_cons.1 hy with h1 | hy2
        · rw [h1]
          exact Or.inr (List.mem_cons_self a rest)
        · rcases ih y hy2 with h | h
          · exact Or.inl h
          · exact Or.inr (List.mem_cons_of_mem a h)
      · rcases List.mem_cons.1 hy with h1 | hy2
        · exact Or.inl h1
        · exact Or.inr hy2

theorem insertByTs_sorted (x : FundingSnapshot) :
    ∀ (l : List FundingSnapshot),
      List.Pairwise (fun a b : FundingSnapshot => a.ts ≤ b.ts) l →
      List.Pairwise (fun a b : FundingSnapshot => a.ts ≤ b.ts) (insertByTs x l) := by
  intro l
  induction l with
  | nil =>
      intro _
      simp [insertByTs]
  | cons a rest ih =>
      intro hs
      rw [List.pairwise_cons] at hs
      unfold insertByTs
      split_ifs with hlt
      · rw [List.pairwise_cons]
        refine ⟨?_, ih hs.2⟩
        intro b hb
        rcases insertByTs_mem x rest b hb with rfl | hb2
        · exact hlt.le
        · exact hs.1 b hb2
      · rw [List.pairwise_cons]
        refine ⟨?_, List.pairwise_cons.2 hs⟩
        intro b hb
        rcases List.mem_cons.1 hb with rfl | hb2
        · exact not_lt.1 hlt
        · exact le_trans (not_lt.1 hlt) (hs.1 b hb2)

theorem sortByTs_sorted :
    ∀ (l : List FundingSnapshot),
      List.Pairwise (fun a b : FundingSnapshot => a.ts ≤ b.ts) (sortByTs l) := by
  intro l
  induction l with
  | nil => simp [sortByTs]
  | cons a rest ih => exact insertByTs_sorted a (sortByTs rest) ih

theorem insertByTs_length (x : FundingSnapshot) :
    ∀ (l : List FundingSnapshot), (insertByTs x l).length = l.length + 1 := by
  intro l
  induction l with
  | nil => rfl
  | cons a rest ih =>
      unfold insertByTs
      split_ifs
      · simp [ih]
      · simp

theorem sortByTs_length : ∀ (l : List FundingSnapshot), (sortByTs l).length = l.length := by
  intro l
  induction l with
  | nil => rfl
  | cons a rest ih =>
      unfold sortByTs
      rw [insertByTs_length, ih, List.length_cons]

theorem runMarketSteps_pnl_ts (cfg : Config) (market : String)
    (dydxData : List FundingSnapshot) :
    ∀ (snaps : List FundingSnapshot) (st : SimState) (cum : ℚ) (j : ℕ),
      (runMarketSteps cfg market dydxData snaps st cum j).pnl.map PnlPoint.ts =
        snaps.map FundingSnapshot.ts := by
  intro snaps
  induction snaps with
  | nil =>
      intro st cum j
      rfl
  | cons snap rest ih =>
      intro st cum j
      unfold runMarketSteps
      simp only [List.map_cons]
      rw [ih]

theorem runMarketSteps_evs_sorted (cfg : Config) (market : String)
    (dydxData : List FundingSnapshot) :
    ∀ (snaps : List FundingSnapshot) (st : SimState) (cum : ℚ) (j : ℕ),
      List.Pairwise (fun a b : FundingSnapshot => a.ts ≤ b.ts) snaps →
      List.Pairwise (fun a b : TradeEvent => a.ts ≤ b.ts)
        (runMarketSteps cfg market dydxData snaps st cum j).evs := by
  intro snaps
  induction snaps with
  | nil =>
      intro st cum j _
      simp [runMarketSteps]
  | cons snap rest ih =>
      intro st cum j hs
      rw [List.pairwise_cons] at hs
      unfold runMarketSteps
      dsimp only
      rw [List.pairwise_append]
      refine ⟨?_, ih _ _ _ hs.2, ?_⟩
      · apply List.pairwise_of_forall_mem_list
        intro a ha b hb
        rw [(stepMarket_evs_shape cfg market dydxData st cum j snap a ha).2.1,
          (stepMarket_evs_shape cfg market dydxData st cum j snap b hb).2.1]
      · intro a ha b hb
        rw [(stepMarket_evs_shape cfg market dydxData st cum j snap a ha).2.1]
        obtain ⟨-, ⟨s, hsmem, hts⟩, -⟩ := runMarketSteps_evs_shape cfg market dydxData rest
          _ _ _ b hb
        rw [hts]
        exact hs.1 s hsmem

/-- Claim C8 (amended): for each market the backtest produces exactly one
profit/loss point per primary-series snapshot, in the sorted primary series
order, and both that market's profit/loss chunk and its trade-event chunk are
time-ordered (non-decreasing timestamps); the global sequences are the
concatenation of these per-market chunks in configuration order, not a
globally sorted merge (see the counterexample). -/
theorem c8_theorem (cfg : Config) (market : String) (series : FundingSeries)
    (st : SimState) (cum : ℚ) :
    (runMarket cfg market series st cum).pnl.map PnlPoint.ts =
      (sortByTs series.drift).map FundingSnapshot.ts ∧
    (runMarket cfg market series st cum).pnl.length = series.drift.length ∧
    List.Pairwise (fun p q : PnlPoint => p.ts ≤ q.ts) (runMarket cfg market series st cum).pnl ∧
    List.Pairwise (fun a b : TradeEvent => a.ts ≤ b.ts) (runMarket cfg market series st cum).evs ∧
    ∀ e ∈ (runMarket cfg market series st cum).evs, e.market = market := by
  unfold runMarket
  have hts := runMarketSteps_pnl_ts cfg market (sortByTs series.dydx) (sortByTs series.drift)
    st cum 0
  refine ⟨hts, ?_, ?_, ?_, ?_⟩
  · have hlen := congrArg List.length hts
    rw [List.length_map, List.length_map, sortByTs_length] at hlen
    exact hlen
  · have hsorted : List.Pairwise (fun a b : ℚ => a ≤ b)
        ((runMarketSteps cfg market (sortByTs series.dydx) (sortByTs series.drift)
          st cum 0).pnl.map PnlPoint.ts) := by
      rw [hts, List.pairwise_map]
      exact sortByTs_sorted series.drift
    rw [List.pairwise_map] at hsorted
    exact hsorted
  · exact runMarketSteps_evs_sorted cfg market (sortByTs series.dydx) (sortByTs series.drift)
      st cum 0 (sortByTs_sorted series.drift)
  · intro e he
    exact (runMarketSteps_evs_shape cfg market (sortByTs series.dydx) (sortByTs series.drift)
      st cum 0 e he).1

/-- Claim C8 counterexample: with two configured markets whose series overlap
in time, the global profit/loss sequence is the concatenation of per-market
chunks — its timestamps run `0, 3600000, 0` — which is not non-decreasing, so
the output is not globally time-ordered across markets. -/
theorem c8_counterexample :
    (runSimulation cexCfgTwo cexHistTwo emptyState).pnlSeries.map PnlPoint.ts =
      [0, 3600000, 0] ∧
    ¬ List.Pairwise (fun a b : ℚ => a ≤ b)
        ((runSimulation cexCfgTwo cexHistTwo emptyState).pnlSeries.map PnlPoint.ts) := by
  have h : (runSimulation cexCfgTwo cexHistTwo emptyState).pnlSeries.map PnlPoint.ts =
      [0, 3600000, 0] := by
    norm_num [runSimulation, runMarketsLoop, runMarket, runMarketSteps, stepMarket, crossPhase,
      singlePhase, crossDecision, sgn, rabs, rmax, EPS, secondaryAt, advancePtr, advancePtrFuel,
      sortByTs, insertByTs, hourlyAccrual, decideReceivePerpSide, spotSideForPerp,
      cexCfgTwo, cexHistTwo, emptyState, str_A_ne_B]
  refine ⟨h, ?_⟩
  rw [h]
  intro hp
  have h2 := (List.pairwise_cons.1 (List.pairwise_cons.1 hp).2).1 0 (by simp)
  norm_num at h2

theorem c8_witness : (runMarket cexCfgTwo "A" cexSeriesA emptyState 0).pnl.length = 2 := by
  have h := (c8_theorem cexCfgTwo "A" cexSeriesA emptyState 0).2.1
  rw [h]
  norm_num [cexSeriesA]

theorem sepBy_nil (cd : ℚ) : sepBy cd [] := by
  intro e1 h1
  exact absurd h1 (List.not_mem_nil e1)

theorem sepBy_single_ts (cd now : ℚ) (evs : List TradeEvent)
    (hevs : ∀ e ∈ evs, e.ts = now) : sepBy cd evs ∧ tsBounded now evs := by
  constructor
  · intro e1 h1 e2 h2
    left
    rw [hevs e1 h1, hevs e2 h2]
  · intro e h
    exact le_of_eq (hevs e h)

theorem sepBy_action (cd now la : ℚ) (hcd : 0 ≤ cd) (l evs : List TradeEvent)
    (hsep : sepBy cd l) (hbnd : tsBounded la l) (hgap : cd * 1000 ≤ now - la)
    (hevs : ∀ e ∈ evs, e.ts = now) :
    sepBy cd (l ++ evs) ∧ tsBounded now (l ++ evs) := by
  have hcd1000 : 0 ≤ cd * 1000 := by positivity
  constructor
  · intro e1 h1 e2 h2
    rcases List.mem_append.1 h1 with ha | ha <;> rcases List.mem_append.1 h2 with hb | hb
    · exact hsep e1 ha e2 hb
    · right
      have hold := hbnd e1 ha
      rw [hevs e2 hb, abs_sub_comm, abs_of_nonneg (by linarith)]
      linarith
    · right
      have hold := hbnd e2 hb
      rw [hevs e1 ha, abs_of_nonneg (by linarith)]
      linarith
    · left
      rw [hevs e1 ha, hevs e2 hb]
  · intro e he
    rcases List.mem_append.1 he with ha | ha
    · have := hbnd e ha
      linarith
    · exact le_of_eq (hevs e ha)

theorem evFilter_append (m : String) (k : EventType) (l1 l2 : List TradeEvent) :
    evFilter m k (l1 ++ l2) = evFilter m k l1 ++ evFilter m k l2 := by
  unfold evFilter
  simp [List.filter_append]

theorem evFilter_eq_nil (m : String) (k : EventType) :
    ∀ (l : List TradeEvent), (∀ e ∈ l, ¬(e.market = m ∧ e.etype = k)) →
      evFilter m k l = [] := by
  intro l
  induction l with
  | nil =>
      intro _
      rfl
  | cons a as ih =>
      intro h
      unfold evFilter at ih ⊢
      rw [List.filter_cons, if_neg (by simpa using h a (List.mem_cons_self a as))]
      exact ih (fun e he => h e (List.mem_cons_of_mem a he))

theorem evFilter_eq_self (m : String) (k : EventType) :
    ∀ (l : List TradeEvent), (∀ e ∈ l, e.market = m ∧ e.etype = k) →
      evFilter m k l = l := by
  intro l
  induction l with
  | nil =>
      intro _
      rfl
  | cons a as ih =>
      intro h
      unfold evFilter at ih ⊢
      rw [List.filter_cons, if_pos (by simpa using h a (List.mem_cons_self a as))]
      rw [ih (fun e he => h e (List.mem_cons_of_mem a he))]

/-- The single-venue phase preserves the per-kind cooldown invariant: actions
fire only when not cooling, so the new events (all at `now`) are at least
`cooldownSec * 1000` after every recorded event, and every action stamps
`lastActionAt = now`. -/
theorem singlePhase_kindInv (cfg : Config) (market : String) (now hA aA : ℚ)
    (pos : Option SinglePos) (l : List TradeEvent) (hcd : 0 ≤ cfg.cooldownSec)
    (hinv : singleKindInv cfg.cooldownSec pos l) :
    singleKindInv cfg.cooldownSec (singlePhase cfg market now hA aA pos).1
      (l ++ (singlePhase cfg market now hA aA pos).2.2) := by
  obtain ⟨hsep, hmatch⟩ := hinv
  have hts : ∀ e ∈ (singlePhase cfg market now hA aA pos).2.2, e.ts = now :=
    fun e he => (singlePhase_evs_shape cfg market now hA aA pos e he).2.2.1
  unfold singlePhase at hts ⊢
  rcases pos with _ | p
  · dsimp only at hmatch
    subst hmatch
    dsimp only at hts ⊢
    split_ifs at hts ⊢ with hg
    · unfold singleKindInv
      dsimp only
      dsimp only at hts
      rw [List.nil_append]
      exact sepBy_single_ts _ now _ hts
    · unfold singleKindInv
      dsimp only
      exact ⟨sepBy_nil _, rfl⟩
  · dsimp only at hmatch hts ⊢
    split_ifs at hts ⊢ with h1 h2 h2 h3
    · -- closed position, ENTER fires
      unfold singleKindInv
      dsimp only
      exact sepBy_action _ now p.lastActionAt hcd l _ hsep hmatch (not_lt.1 h2.2) hts
    · -- closed position, no action
      unfold singleKindInv
      dsimp only
      rw [List.append_nil]
      exact ⟨hsep, hmatch⟩
    · -- open position, EXIT fires
      unfold singleKindInv
      dsimp only
      exact sepBy_action _ now p.lastActionAt hcd l _ hsep hmatch (not_lt.1 h2.2) hts
    · -- open position, flip fires
      unfold singleKindInv
      dsimp only
      exact sepBy_action _ now p.lastActionAt hcd l _ hsep hmatch (not_lt.1 h3.2) hts
    · -- open position, hold (only lastApr is refreshed)
      unfold singleKindInv
      dsimp only
      rw [List.append_nil]
      exact ⟨hsep, hmatch⟩

/-- The cross-venue phase preserves the per-kind cooldown invariant. -/
theorem crossPhase_kindInv (cfg : Config) (market : String)
    (now hA aA hB aB : ℚ) (cpos : Option CrossPos) (l : List TradeEvent)
    (hcd : 0 ≤ cfg.cooldownSec)
    (hinv : crossKindInv cfg.cooldownSec cpos l) :
    crossKindInv cfg.cooldownSec (crossPhase cfg market now hA aA hB aB cpos).1
      (l ++ (crossPhase cfg market now hA aA hB aB cpos).2.2) := by
  obtain ⟨hsep, hmatch⟩ := hinv
  have hts : ∀ e ∈ (crossPhase cfg market now hA aA hB aB cpos).2.2, e.ts = now :=
    fun e he => (crossPhase_evs_shape cfg market now hA aA hB aB cpos e he).2.2.1
  unfold crossPhase at hts ⊢
  rcases cpos with _ | cp
  · dsimp only at hmatch
    subst hmatch
    dsimp only at hts ⊢
    split_ifs at hts ⊢ with hg
    · unfold crossKindInv
      dsimp only
      dsimp only at hts
      rw [List.nil_append]
      exact sepBy_single_ts _ now _ hts
    · unfold crossKindInv
      dsimp only
      exact ⟨sepBy_nil _, rfl⟩
  · dsimp only at hmatch hts ⊢
    split_ifs at hts ⊢ with h1 h2 h2 h3
    · unfold crossKindInv
      dsimp only
      exact sepBy_action _ now cp.lastActionAt hcd l _ hsep hmatch (not_lt.1 h2.2) hts
    · unfold crossKindInv
      dsimp only
      rw [List.append_nil]
      exact ⟨hsep, hmatch⟩
    · unfold crossKindInv
      dsimp only
      exact sepBy_action _ now cp.lastActionAt hcd l _ hsep hmatch (not_lt.1 h2.2) hts
    · unfold crossKindInv
      dsimp only
      exact sepBy_action _ now cp.lastActionAt hcd l _ hsep hmatch (not_lt.1 h3.2) hts
    · unfold crossKindInv
      dsimp only
      rw [List.append_nil]
      exact ⟨hsep, hmatch⟩

theorem stepMarket_single_ne (cfg : Config) (market : String) (dydxData : List FundingSnapshot)
    (st : SimState) (cum : ℚ) (j0 : ℕ) (snap : FundingSnapshot) (m : String)
    (hm : m ≠ market) :
    (stepMarket cfg market dydxData st cum j0 snap).st.single m = st.single m := by
  unfold stepMarket
  dsimp only
  rw [if_neg hm]

theorem stepMarket_cross_ne (cfg : Config) (market : String) (dydxData : List FundingSnapshot)
    (st : SimState) (cum : ℚ) (j0 : ℕ) (snap : FundingSnapshot) (m : String)
    (hm : m ≠ market) :
    (stepMarket cfg market dydxData st cum j0 snap).st.cross m = st.cross m := by
  unfold stepMarket
  dsimp only
  rw [if_neg hm]

theorem stepMarket_cross_eq (cfg : Config) (market : String) (dydxData : List FundingSnapshot)
    (st : SimState) (cum : ℚ) (j0 : ℕ) (snap : FundingSnapshot) :
    (stepMarket cfg market dydxData st cum j0 snap).st.cross market =
      (crossResStep cfg market dydxData st j0 snap).1 := by
  unfold stepMarket crossResStep
  dsimp only
  rw [if_pos rfl]

theorem stepMarket_single_eq (cfg : Config) (market : String) (dydxData : List FundingSnapshot)
    (st : SimState) (cum : ℚ) (j0 : ℕ) (snap : FundingSnapshot) :
    (stepMarket cfg market dydxData st cum j0 snap).st.single market =
      (singleResStep cfg market dydxData st j0 snap).1 := by
  unfold stepMarket singleResStep crossResStep
  dsimp only
  rw [if_pos rfl]

theorem stepMarket_evs_eq (cfg : Config) (market : String) (dydxData : List FundingSnapshot)
    (st : SimState) (cum : ℚ) (j0 : ℕ) (snap : FundingSnapshot) :
    (stepMarket cfg market dydxData st cum j0 snap).evs =
      (crossResStep cfg market dydxData st j0 snap).2.2 ++
        (singleResStep cfg market dydxData st j0 snap).2.2 := by
  unfold stepMarket singleResStep crossResStep
  dsimp only

theorem crossResStep_evs_shape (cfg : Config) (market : String)
    (dydxData : List FundingSnapshot) (st : SimState) (j0 : ℕ) (snap : FundingSnapshot) :
    ∀ e ∈ (crossResStep cfg market dydxData st j0 snap).2.2,
      e.etype = EventType.CROSS ∧ e.market = market := by
  intro e he
  unfold crossResStep at he
  split_ifs at he
  · have h := crossPhase_evs_shape cfg market snap.ts snap.hourlyPct snap.aprPct
      (secondaryAt dydxData (advancePtr dydxData snap.ts j0) snap.ts).1
      (secondaryAt dydxData (advancePtr dydxData snap.ts j0) snap.ts).2
      (st.cross market) e he
    exact ⟨h.1, h.2.1⟩
  · exact absurd he (List.not_mem_nil e)

theorem singleResStep_evs_shape (cfg : Config) (market : String)
    (dydxData : List FundingSnapshot) (st : SimState) (j0 : ℕ) (snap : FundingSnapshot) :
    ∀ e ∈ (singleResStep cfg market dydxData st j0 snap).2.2,
      e.etype = EventType.SINGLE ∧ e.market = market := by
  intro e he
  unfold singleResStep at he
  split_ifs at he
  · exact absurd he (List.not_mem_nil e)
  · have h := singlePhase_evs_shape cfg market snap.ts snap.hourlyPct snap.aprPct
      (st.single market) e he
    exact ⟨h.1, h.2.1⟩

/-- One evaluation step preserves the simulation-wide cooldown invariant. -/
theorem stepMarket_globalInv (cfg : Config) (market : String)
    (dydxData : List FundingSnapshot) (st : SimState) (cum : ℚ) (j0 : ℕ)
    (snap : FundingSnapshot) (l : List TradeEvent)
    (hcd : 0 ≤ cfg.cooldownSec) (hinv : globalInv cfg.cooldownSec st l) :
    globalInv cfg.cooldownSec (stepMarket cfg market dydxData st cum j0 snap).st
      (l ++ (stepMarket cfg market dydxData st cum j0 snap).evs) := by
  have hshape := stepMarket_evs_shape cfg market dydxData st cum j0 snap
  intro m
  constructor
  · by_cases hm : m = market
    · subst hm
      rw [stepMarket_single_eq, stepMarket_evs_eq, evFilter_append, evFilter_append]
      have hnilC : evFilter m EventType.SINGLE
          (crossResStep cfg m dydxData st j0 snap).2.2 = [] := by
        apply evFilter_eq_nil
        intro e he hc
        have := (crossResStep_evs_shape cfg m dydxData st j0 snap e he).1
        rw [hc.2] at this
        exact absurd this (by intro h; cases h)
      rw [hnilC, List.nil_append]
      unfold singleResStep
      split_ifs with hopen
      · dsimp only
        rw [show evFilter m EventType.SINGLE ([] : List TradeEvent) = [] from rfl,
          List.append_nil]
        exact (hinv m).1
      · rw [evFilter_eq_self m EventType.SINGLE _ (fun e he =>
          ⟨(singlePhase_evs_shape cfg m snap.ts snap.hourlyPct snap.aprPct
              (st.single m) e he).2.1,
           (singlePhase_evs_shape cfg m snap.ts snap.hourlyPct snap.aprPct
              (st.single m) e he).1⟩)]
        exact singlePhase_kindInv cfg m snap.ts snap.hourlyPct snap.aprPct
          (st.single m) _ hcd (hinv m).1
    · rw [stepMarket_single_ne cfg market dydxData st cum j0 snap m hm, evFilter_append]
      have hnil : evFilter m EventType.SINGLE
          (stepMarket cfg market dydxData st cum j0 snap).evs = [] := by
        apply evFilter_eq_nil
        intro e he hc
        exact hm (hc.1 ▸ (hshape e he).1)
      rw [hnil, List.append_nil]
      exact (hinv m).1
  · by_cases hm : m = market
    · subst hm
      rw [stepMarket_cross_eq, stepMarket_evs_eq, evFilter_append, evFilter_append]
      have hnilS : evFilter m EventType.CROSS
          (singleResStep cfg m dydxData st j0 snap).2.2 = [] := by
        apply evFilter_eq_nil
        intro e he hc
        have := (singleResStep_evs_shape cfg m dydxData st j0 snap e he).1
        rw [hc.2] at this
        exact absurd this (by intro h; cases h)
      rw [hnilS, List.append_nil]
      unfold crossResStep
      split_ifs with hcond
      · rw [evFilter_eq_self m EventType.CROSS _ (fun e he =>
          ⟨(crossPhase_evs_shape cfg m snap.ts snap.hourlyPct snap.aprPct
              (secondaryAt dydxData (advancePtr dydxData snap.ts j0) snap.ts).1
              (secondaryAt dydxData (advancePtr dydxData snap.ts j0) snap.ts).2
              (st.cross m) e he).2.1,
           (crossPhase_evs_shape cfg m snap.ts snap.hourlyPct snap.aprPct
              (secondaryAt dydxData (advancePtr dydxData snap.ts j0) snap.ts).1
              (secondaryAt dydxData (advancePtr dydxData snap.ts j0) snap.ts).2
              (st.cross m) e he).1⟩)]
        exact crossPhase_kindInv cfg m snap.ts snap.hourlyPct snap.aprPct
          (secondaryAt dydxData (advancePtr dydxData snap.ts j0) snap.ts).1
          (secondaryAt dydxData (advancePtr dydxData snap.ts j0) snap.ts).2
          (st.cross m) _ hcd (hinv m).2
      · dsimp only
        rw [show evFilter m EventType.CROSS ([] : List TradeEvent) = [] from rfl,
          List.append_nil]
        exact (hinv m).2
    · rw [stepMarket_cross_ne cfg market dydxData st cum j0 snap m hm, evFilter_append]
      have hnil : evFilter m EventType.CROSS
          (stepMarket cfg market dydxData st cum j0 snap).evs = [] := by
        apply evFilter_eq_nil
        intro e he hc
        exact hm (hc.1 ▸ (hshape e he).1)
      rw [hnil, List.append_nil]
      exact (hinv m).2

theorem runMarketSteps_globalInv (cfg : Config) (market : String)
    (dydxData : List FundingSnapshot) :
    ∀ (snaps : List FundingSnapshot) (st : SimState) (cum : ℚ) (j : ℕ)
      (l : List TradeEvent),
      0 ≤ cfg.cooldownSec → globalInv cfg.cooldownSec st l →
      globalInv cfg.cooldownSec (runMarketSteps cfg market dydxData snaps st cum j).st
        (l ++ (runMarketSteps cfg market dydxData snaps st cum j).evs) := by
  intro snaps
  induction snaps with
  | nil =>
      intro st cum j l hcd hinv
      unfold runMarketSteps
      dsimp only
      rw [List.append_nil]
      exact hinv
  | cons snap rest ih =>
      intro st cum j l hcd hinv
      unfold runMarketSteps
      dsimp only
      rw [← List.append_assoc]
      exact ih _ _ _ _ hcd (stepMarket_globalInv cfg market dydxData st cum j snap l hcd hinv)

theorem runMarketsLoop_globalInv (cfg : Config) (history : List (String × FundingSeries)) :
    ∀ (ms : List String) (st : SimState) (cum : ℚ) (l : List TradeEvent),
      0 ≤ cfg.cooldownSec → globalInv cfg.cooldownSec st l →
      globalInv cfg.cooldownSec (runMarketsLoop cfg history ms st cum).state
        (l ++ (runMarketsLoop cfg history ms st cum).tradeEvents) := by
  intro ms
  induction ms with
  | nil =>
      intro st cum l hcd hinv
      unfold runMarketsLoop
      dsimp only
      rw [List.append_nil]
      exact hinv
  | cons m rest ih =>
      intro st cum l hcd hinv
      unfold runMarketsLoop
      rcases hfind : (history.find? (fun p => p.1 = m)).map (fun p => p.2) with _ | series
      · rw [hfind]
        exact ih _ _ _ hcd hinv
      · rw [hfind]
        dsimp only
        rw [← List.append_assoc]
        apply ih _ _ _ hcd
        unfold runMarket
        exact runMarketSteps_globalInv cfg m (sortByTs series.dydx) (sortByTs series.drift)
          st cum 0 l hcd hinv

theorem globalInv_empty (cd : ℚ) : globalInv cd emptyState [] := by
  intro m
  exact ⟨⟨sepBy_nil cd, rfl⟩, ⟨sepBy_nil cd, rfl⟩⟩

/-- Claim C2 (amended): cooldowns are tracked per market *and per position
kind*.  In every backtest run from the initial empty position maps, any two
trade events for the same market and the same kind (SINGLE or CROSS) are
either simultaneous (the EXIT/ENTER pair of a flip) or at least
`cooldownSec * 1000` milliseconds apart.  Events of different kinds for the
same market are not separated (see the counterexample), and while a position
is cooling no ENTER/EXIT/FLIP is performed on it — though an open single
position's `lastApr` field is still refreshed every step. -/
theorem c2_theorem (cfg : Config) (history : List (String × FundingSeries))
    (hcd : 0 ≤ cfg.cooldownSec) :
    ∀ e1 ∈ (runSimulation cfg history emptyState).tradeEvents,
      ∀ e2 ∈ (runSimulation cfg history emptyState).tradeEvents,
        e1.market = e2.market → e1.etype = e2.etype →
        e1.ts = e2.ts ∨ cfg.cooldownSec * 1000 ≤ |e1.ts - e2.ts| := by
  have hg : globalInv cfg.cooldownSec (runSimulation cfg history emptyState).state
      ([] ++ (runSimulation cfg history emptyState).tradeEvents) := by
    unfold runSimulation
    exact runMarketsLoop_globalInv cfg history cfg.markets emptyState 0 [] hcd
      (globalInv_empty _)
  rw [List.nil_append] at hg
  intro e1 he1 e2 he2 hm hty
  rcases hety : e1.etype with _ | _
  · obtain ⟨hsep, -⟩ := (hg e1.market).2
    apply hsep e1 ?_ e2 ?_
    · unfold evFilter
      exact List.mem_filter.2 ⟨he1, by simp [hety]⟩
    · unfold evFilter
      refine List.mem_filter.2 ⟨he2, ?_⟩
      simp only [decide_eq_true_eq]
      exact ⟨hm.symm, by rw [← hty, hety]⟩
  · obtain ⟨hsep, -⟩ := (hg e1.market).1
    apply hsep e1 ?_ e2 ?_
    · unfold evFilter
      exact List.mem_filter.2 ⟨he1, by simp [hety]⟩
    · unfold evFilter
      refine List.mem_filter.2 ⟨he2, ?_⟩
      simp only [decide_eq_true_eq]
      exact ⟨hm.symm, by rw [← hty, hety]⟩

/-- Claim C2 counterexample: in the `cexHistCross` run, the events at log
positions 1 and 2 — the CROSS EXIT and the SINGLE ENTER of the same market —
share the timestamp `3600000`, so two ENTER/EXIT events for one market are
`0 < cooldownSeconds` apart: the cross and single cooldowns are independent,
and a cross close plus a single open can happen in one step. -/
theorem c2_counterexample :
    ((runSimulation cexCfgCross cexHistCross emptyState).tradeEvents[1]?).map
        TradeEvent.market = some "SOL-PERP" ∧
    ((runSimulation cexCfgCross cexHistCross emptyState).tradeEvents[2]?).map
        TradeEvent.market = some "SOL-PERP" ∧
    ((runSimulation cexCfgCross cexHistCross emptyState).tradeEvents[1]?).map
        TradeEvent.ts = some 3600000 ∧
    ((runSimulation cexCfgCross cexHistCross emptyState).tradeEvents[2]?).map
        TradeEvent.ts = some 3600000 ∧
    ((runSimulation cexCfgCross cexHistCross emptyState).tradeEvents[1]?).map
        TradeEvent.action = some TradeAction.EXIT ∧
    ((runSimulation cexCfgCross cexHistCross emptyState).tradeEvents[2]?).map
        TradeEvent.action = some TradeAction.ENTER ∧
    |(3600000 : ℚ) - 3600000| < cexCfgCross.cooldownSec * 1000 := by
  norm_num [runSimulation, runMarketsLoop, runMarket, runMarketSteps, stepMarket, crossPhase,
    singlePhase, crossDecision, sgn, rabs, rmax, EPS, secondaryAt, advancePtr, advancePtrFuel,
    sortByTs, insertByTs, hourlyAccrual, decideReceivePerpSide, spotSideForPerp,
    cexCfgCross, cexHistCross, emptyState, LONG_ne_SHORT, SHORT_ne_LONG, str_dydx_ne_none]

theorem c2_witness :
    cexEv0.ts = cexEv3.ts ∨ cexCfgCross.cooldownSec * 1000 ≤ |cexEv0.ts - cexEv3.ts| :=
  c2_theorem cexCfgCross cexHistCross (by norm_num [cexCfgCross]) cexEv0
    (by norm_num [runSimulation, runMarketsLoop, runMarket, runMarketSteps, stepMarket,
      crossPhase, singlePhase, crossDecision, sgn, rabs, rmax, EPS, secondaryAt, advancePtr,
      advancePtrFuel, sortByTs, insertByTs, hourlyAccrual, decideReceivePerpSide,
      spotSideForPerp, cexCfgCross, cexHistCross, emptyState, cexEv0,
      LONG_ne_SHORT, SHORT_ne_LONG, str_dydx_ne_none])
    cexEv3
    (by norm_num [runSimulation, runMarketsLoop, runMarket, runMarketSteps, stepMarket,
      crossPhase, singlePhase, crossDecision, sgn, rabs, rmax, EPS, secondaryAt, advancePtr,
      advancePtrFuel, sortByTs, insertByTs, hourlyAccrual, decideReceivePerpSide,
      spotSideForPerp, cexCfgCross, cexHistCross, emptyState, cexEv3,
      LONG_ne_SHORT, SHORT_ne_LONG, str_dydx_ne_none])
    (by norm_num [cexEv0, cexEv3]) (by norm_num [cexEv0, cexEv3])
